import Mathlib

/-!
Verification of the song-catalog statistics aggregator and form validation.

The definitions below are a shallow embedding of the TypeScript sources:
`src/frontend/src/components/SongManager.tsx` (countByField, the chart data
preparation shared by BarChart / DonutChart / StackedBarChart, the stats
block), `src/frontend/src/components/SongForm.tsx` (validateField and
handleSubmit, both variants present in the file), and the redux slice
`songsSlice` (deleteSongSuccess, updateSongSuccess).

JavaScript objects keep string keys in insertion order, so a frequency
table (`Record<string, number>`) is embedded as an association list
`List (String × Nat)` in key-insertion order with distinct keys;
`Object.entries` is the identity on this representation.
`Array.prototype.sort` is a stable sort, embedded as insertion sort.
-/

namespace SongCatalog

/-- The Song record (`types/song.ts`): `_id?: string` plus four required
string attributes. The optional identifier becomes `Option String`;
JavaScript `===` on `string | undefined` agrees with equality on
`Option String`. -/
structure Song where
  _id : Option String
  Title : String
  Artist : String
  Album : String
  Genre : String
deriving DecidableEq, Repr

/-- The four field selectors used by `countByField` and the form. -/
inductive Field where
  | Title
  | Artist
  | Album
  | Genre
deriving DecidableEq, Repr

/-- Field access `s[field]` for `field : keyof Song` restricted to the four
string attributes. -/
def getField (s : Song) : Field → String
  | Field.Title => s.Title
  | Field.Artist => s.Artist
  | Field.Album => s.Album
  | Field.Genre => s.Genre

/-- The display name of a field, as interpolated into error messages. -/
def fieldName : Field → String
  | Field.Title => "Title"
  | Field.Artist => "Artist"
  | Field.Album => "Album"
  | Field.Genre => "Genre"

/-- One step of the reduce in `countByField`:
`acc[v] = (acc[v] || 0) + 1` on a JavaScript object. An existing key keeps
its position (a JS object has at most one entry per key, so incrementing
the first hit is the exact behaviour); a new key is appended, matching JS
key-insertion order. -/
def bump : List (String × Nat) → String → List (String × Nat)
  | [], k => [(k, 1)]
  | p :: ps, k => if p.1 = k then (p.1, p.2 + 1) :: ps else p :: bump ps k

/-- `countByField` (SongManager.tsx line 18): fold the records through
`bump` starting from the empty object. This is the spec's
`frequencyByField`. -/
def countByField (songs : List Song) (field : Field) : List (String × Nat) :=
  songs.foldl (fun acc s => bump acc (getField s field)) []

/-- `new Set(songs.map(s => s[field])).size` (SongManager.tsx stats block):
the number of distinct values of a field. Only the cardinality of the set
is used, so `List.dedup` length is a faithful embedding. -/
def uniqueCount (songs : List Song) (field : Field) : Nat :=
  (songs.map (fun s => getField s field)).dedup.length

/-- Insert a pair into a descending-sorted list, after every element whose
count is strictly greater. Used by `sortDesc`. -/
def insertDesc (p : String × Nat) : List (String × Nat) → List (String × Nat)
  | [] => [p]
  | q :: qs => if q.2 > p.2 then q :: insertDesc p qs else p :: q :: qs

/-- `Object.entries(data).sort(([, a], [, b]) => b - a)`: a stable sort by
descending count. JavaScript's sort is stable, and any stable sort by a
key yields the same list, so insertion sort is a faithful embedding. -/
def sortDesc : List (String × Nat) → List (String × Nat)
  | [] => []
  | p :: ps => insertDesc p (sortDesc ps)

/-- `Object.entries(data).sort(([, a], [, b]) => b - a).slice(0, n)`
(SongManager.tsx lines 36, 56, 100): the spec's `topN`. -/
def topNList (t : List (String × Nat)) (n : Nat) : List (String × Nat) :=
  (sortDesc t).take n

/-- `Object.entries(genreCount).sort((a, b) => b[1] - a[1])[0]?.[0] || "-"`
(SongManager.tsx lines 161 and 636-637): the spec's `mostCommon`. The JS
`|| "-"` replaces any falsy value by the sentinel: both `undefined` (empty
table) and the empty string (a top entry whose key is `""`). -/
def mostCommon (t : List (String × Nat)) : String :=
  match sortDesc t with
  | [] => "-"
  | p :: _ => if p.1 = "" then "-" else p.1

/-- The slice data built by `DonutChart` (SongManager.tsx lines 55-71): the
top `n` (value, count) entries, followed by an `"Other"` entry exactly when
`remaining = total - sum(shown counts)` is positive. `remaining` is a JS
number that may be negative, hence `Int` counts. The drawing angles are
presentational; the divisions they perform are tracked by
`shareDivisions`. The `n` parameter generalises the hard-coded
`maxItems = 5`. This is the spec's `shareBreakdown`. -/
def shareBreakdown (data : List (String × Nat)) (total : Nat) (n : Nat) :
    List (String × Int) :=
  if 0 < (total : Int) - (((topNList data n).map Prod.snd).sum : Nat) then
    (topNList data n).map (fun p => (p.1, (p.2 : Int))) ++
      [("Other", (total : Int) - (((topNList data n).map Prod.snd).sum : Nat))]
  else
    (topNList data n).map (fun p => (p.1, (p.2 : Int)))

/-- The (numerator, denominator) pair of every division executed while
building the donut slices: one `count / total` per shown entry
(SongManager.tsx line 62, `const angle = (count / total) * 360`). -/
def shareDivisions (data : List (String × Nat)) (total : Nat) (n : Nat) :
    List (Nat × Nat) :=
  (topNList data n).map (fun p => (p.2, total))

/-- JavaScript whitespace: the character class matched by `\s` in a JS
regular expression, which is also the set stripped by `String.trim`. -/
def isJsWs (c : Char) : Bool :=
  c == ' ' || c == '\t' || c == '\n' || c == '\u000B' || c == '\u000C' ||
  c == '\r' || c == '\u00A0' || c == '\u1680' ||
  (0x2000 ≤ c.toNat && c.toNat ≤ 0x200A) ||
  c == '\u2028' || c == '\u2029' || c == '\u202F' || c == '\u205F' ||
  c == '\u3000' || c == '\uFEFF'

/-- ASCII letter, the `a-zA-Z` ranges of the validation regexes. -/
def isAsciiLetter (c : Char) : Bool :=
  ('a' ≤ c && c ≤ 'z') || ('A' ≤ c && c ≤ 'Z')

/-- ASCII digit, the `0-9` range of the validation regex. -/
def isAsciiDigit (c : Char) : Bool :=
  '0' ≤ c && c ≤ '9'

/-- A character allowed in Title/Artist by `/[^a-zA-Z0-9\s]/`:
letter, digit, or whitespace. -/
def isTAAllowed (c : Char) : Bool :=
  isAsciiLetter c || isAsciiDigit c || isJsWs c

/-- `validateField` (SongForm.tsx lines 48-56, identically SongManager.tsx
lines 394-409): empty-after-trim reports `"<field> is required"`
(`!value.trim()` holds exactly when every character is whitespace);
otherwise, for Title and Artist, `/[^a-zA-Z0-9\s]/.test(value)` reports
`"<field> can only contain letters, numbers, and spaces"`; otherwise no
error (the empty message). -/
def validateField (f : Field) (v : String) : String :=
  if v.data.all isJsWs then fieldName f ++ " is required"
  else if (f == Field.Title || f == Field.Artist) &&
      v.data.any (fun c => !(isTAAllowed c)) then
    fieldName f ++ " can only contain letters, numbers, and spaces"
  else ""

/-- The second `validateField` variant in SongForm.tsx (lines 120-127):
same required check, but Title/Artist are tested against
`/[^a-zA-Z\s]/` and the message is
`"<field> can only contain letters and spaces"` — digits are rejected. -/
def validateFieldLettersOnly (f : Field) (v : String) : String :=
  if v.data.all isJsWs then fieldName f ++ " is required"
  else if (f == Field.Title || f == Field.Artist) &&
      v.data.any (fun c => !(isAsciiLetter c || isJsWs c)) then
    fieldName f ++ " can only contain letters and spaces"
  else ""

/-- The submission order of the four fields, `fields` in SongForm.tsx. -/
def allFields : List Field :=
  [Field.Title, Field.Artist, Field.Album, Field.Genre]

/-- `handleSubmit`'s validation pass
(`fields.every(f => validateField(f, song[f]))`, SongForm.tsx lines 65-72
and 135-146; the `&&`-chain of SongManager.tsx lines 417-427 behaves the
same way). `every` short-circuits: each call records `(field, message)`
via `setErrors`, and iteration stops at the first failing field. Returns
the recorded (field, message) trace in order, and the overall result. -/
def validateAll : List Field → (Field → String) → List (Field × String) × Bool
  | [], _ => ([], true)
  | f :: fs, song =>
    let e := validateField f (song f)
    if e = "" then
      let r := validateAll fs song
      ((f, e) :: r.1, r.2)
    else ([(f, e)], false)

/-- `deleteSongSuccess` (songsSlice, lines 56-59):
`state.songs = state.songs.filter(s => s._id !== action.payload)`. -/
def deleteSongSuccess (songs : List Song) (payload : String) : List Song :=
  songs.filter (fun s => s._id != some payload)

/-- `updateSongSuccess` (songsSlice, lines 70-74):
`findIndex(s => s._id === action.payload._id)` and, when found, replace
that element. `findIndex` returns the first match, so this replaces the
first record whose identifier equals the payload's and leaves everything
else in place; with no match it is the identity. -/
def updateSongSuccess : List Song → Song → List Song
  | [], _ => []
  | s :: rest, u =>
    if s._id == u._id then u :: rest else s :: updateSongSuccess rest u

/-! ### Helper lemmas about the frequency-table fold -/

theorem sum_bump (acc : List (String × Nat)) (k : String) :
    ((bump acc k).map Prod.snd).sum = (acc.map Prod.snd).sum + 1 := by
  induction acc with
  | nil => simp [bump]
  | cons p ps ih =>
    by_cases h : p.1 = k
    · simp [bump, h]
      omega
    · simp [bump, h, ih]
      omega

theorem countAux_sum (l : List Song) (f : Field) :
    ∀ acc : List (String × Nat),
      ((l.foldl (fun a s => bump a (getField s f)) acc).map Prod.snd).sum
        = (acc.map Prod.snd).sum + l.length := by
  induction l with
  | nil => intro acc; simp
  | cons s rest ih =>
    intro acc
    simp only [List.foldl_cons, ih, sum_bump, List.length_cons]
    omega

theorem mem_keys_bump (acc : List (String × Nat)) (k a : String) :
    a ∈ (bump acc k).map Prod.fst ↔ a ∈ acc.map Prod.fst ∨ a = k := by
  induction acc with
  | nil => simp [bump]
  | cons p ps ih =>
    by_cases h : p.1 = k
    · subst h
      rw [show bump (p :: ps) p.1 = (p.1, p.2 + 1) :: ps from by simp [bump]]
      simp only [List.map_cons, List.mem_cons]
      tauto
    · simp only [bump, if_neg h, List.map_cons, List.mem_cons, ih]
      tauto

theorem nodup_keys_bump (acc : List (String × Nat)) (k : String)
    (h : (acc.map Prod.fst).Nodup) : ((bump acc k).map Prod.fst).Nodup := by
  induction acc with
  | nil => simp [bump]
  | cons p ps ih =>
    simp only [List.map_cons, List.nodup_cons] at h
    by_cases hk : p.1 = k
    · simp only [bump, if_pos hk, List.map_cons, List.nodup_cons]
      exact ⟨h.1, h.2⟩
    · simp only [bump, if_neg hk, List.map_cons, List.nodup_cons]
      refine ⟨?_, ih h.2⟩
      rw [mem_keys_bump]
      rintro (hmem | heq)
      · exact h.1 hmem
      · exact hk heq

theorem countAux_keys (l : List Song) (f : Field) :
    ∀ acc : List (String × Nat), (acc.map Prod.fst).Nodup →
      ((l.foldl (fun a s => bump a (getField s f)) acc).map Prod.fst).Nodup ∧
      (∀ a, a ∈ (l.foldl (fun a s => bump a (getField s f)) acc).map Prod.fst ↔
        a ∈ acc.map Prod.fst ∨ a ∈ l.map (fun s => getField s f)) := by
  induction l with
  | nil => intro acc h; simpa using h
  | cons s rest ih =>
    intro acc h
    have hstep := ih (bump acc (getField s f)) (nodup_keys_bump acc _ h)
    refine ⟨hstep.1, fun a => ?_⟩
    simp only [List.foldl_cons, hstep.2 a, mem_keys_bump, List.map_cons,
      List.mem_cons]
    tauto

/-! ### Helper lemmas about the redux record-set operations -/

theorem updateSong_noop (l : List Song) (u : Song) :
    (∀ s ∈ l, s._id ≠ u._id) → updateSongSuccess l u = l := by
  induction l with
  | nil => intro _; rfl
  | cons a rest ih =>
    intro h
    have ha : (a._id == u._id) = false := by
      simpa using h a (List.mem_cons_self a rest)
    simp [updateSongSuccess, ha,
      ih (fun s hs => h s (List.mem_cons_of_mem a hs))]

theorem updateSong_idem (l : List Song) (v : Song) :
    updateSongSuccess (updateSongSuccess l v) v = updateSongSuccess l v := by
  induction l with
  | nil => rfl
  | cons a rest ih =>
    by_cases ha : a._id = v._id
    · simp [updateSongSuccess, ha]
    · have ha' : (a._id == v._id) = false := by simpa using ha
      simp [updateSongSuccess, ha', ih]

theorem updateSong_length (l : List Song) (u : Song) :
    (updateSongSuccess l u).length = l.length := by
  induction l with
  | nil => rfl
  | cons a rest ih =>
    by_cases ha : (a._id == u._id)
    · simp [updateSongSuccess, ha]
    · simp [updateSongSuccess, ha, ih]

/-! ### Claims -/

/-- Claim C3: for every list of records and every field, the values of
`countByField` (the spec's `frequencyByField`) sum to `records.length`,
and on the empty record set the mapping is empty. -/
theorem frequencyByField_values_sum (records : List Song) (f : Field) :
    ((countByField records f).map Prod.snd).sum = records.length ∧
    countByField ([] : List Song) f = [] := by
  refine ⟨?_, rfl⟩
  simpa using countAux_sum records f []

/-- Claim C7: `uniqueCount` equals the number of keys of the frequency
table produced by `countByField`. -/
theorem uniqueCount_eq_frequency_keys (records : List Song) (f : Field) :
    uniqueCount records f = (countByField records f).length := by
  have h := countAux_keys records f [] (by simp)
  have hperm : List.Perm ((countByField records f).map Prod.fst)
      ((records.map (fun s => getField s f)).dedup) := by
    refine (List.perm_ext_iff_of_nodup ?_ (List.nodup_dedup _)).mpr ?_
    · exact h.1
    · intro a
      rw [List.mem_dedup]
      simpa using h.2 a
  have hlen := hperm.length_eq
  simp only [List.length_map] at hlen
  simp [uniqueCount, ← hlen]

/-- Claim C9: deleting or replacing by an identifier that matches no record
leaves the record set unchanged, and both `deleteSongSuccess` and
`updateSongSuccess` are idempotent in effect. -/
theorem crud_missing_id_noop_idempotent (songs : List Song) (id : String)
    (u : Song)
    (hdel : ∀ s ∈ songs, s._id ≠ some id)
    (hupd : ∀ s ∈ songs, s._id ≠ u._id) :
    deleteSongSuccess songs id = songs ∧
    updateSongSuccess songs u = songs ∧
    (∀ (l : List Song) (i : String),
      deleteSongSuccess (deleteSongSuccess l i) i = deleteSongSuccess l i) ∧
    (∀ (l : List Song) (v : Song),
      updateSongSuccess (updateSongSuccess l v) v = updateSongSuccess l v) := by
  refine ⟨?_, updateSong_noop songs u hupd, ?_, updateSong_idem⟩
  · apply List.filter_eq_self.mpr
    intro s hs
    simpa using hdel s hs
  · intro l i
    simp [deleteSongSuccess, List.filter_filter]

/-- Witness for C9 at a concrete record set and a missing identifier. -/
theorem crud_missing_id_noop_idempotent_witness :
    deleteSongSuccess [⟨some "1", "T", "A", "B", "G"⟩] "2"
      = [⟨some "1", "T", "A", "B", "G"⟩] :=
  (crud_missing_id_noop_idempotent [⟨some "1", "T", "A", "B", "G"⟩] "2"
    ⟨some "2", "T", "A", "B", "G"⟩ (by decide) (by decide)).1

/-- Claim C10: when some record matches the supplied record's identifier,
`updateSongSuccess` replaces exactly the first match, preserving the list's
length, every other record, and the relative order. -/
theorem update_replaces_first_match (l : List Song) (u : Song)
    (h : ∃ s ∈ l, s._id = u._id) :
    (updateSongSuccess l u).length = l.length ∧
    ∃ l₁ s l₂, l = l₁ ++ s :: l₂ ∧ (∀ x ∈ l₁, x._id ≠ u._id) ∧
      s._id = u._id ∧ updateSongSuccess l u = l₁ ++ u :: l₂ := by
  refine ⟨updateSong_length l u, ?_⟩
  induction l with
  | nil => simp at h
  | cons a rest ih =>
    by_cases ha : a._id = u._id
    · refine ⟨[], a, rest, by simp, by simp, ha, ?_⟩
      have ha' : (a._id == u._id) = true := by simpa using ha
      simp [updateSongSuccess, ha']
    · have h' : ∃ s ∈ rest, s._id = u._id := by
        rcases h with ⟨s, hs, he⟩
        rcases List.mem_cons.mp hs with rfl | hmem
        · exact absurd he ha
        · exact ⟨s, hmem, he⟩
      rcases ih h' with ⟨l₁, s, l₂, hdec, hnone, hsid, hupd⟩
      refine ⟨a :: l₁, s, l₂, by simp [hdec], ?_, hsid, ?_⟩
      · intro x hx
        rcases List.mem_cons.mp hx with rfl | hmem
        · exact ha
        · exact hnone x hmem
      · have ha' : (a._id == u._id) = false := by simpa using ha
        simp [updateSongSuccess, ha', hupd]

/-- Witness for C10 at a concrete one-element record set. -/
theorem update_replaces_first_match_witness :
    (updateSongSuccess [⟨some "1", "T", "A", "B", "G"⟩]
      ⟨some "1", "X", "Y", "Z", "W"⟩).length = 1 :=
  (update_replaces_first_match [⟨some "1", "T", "A", "B", "G"⟩]
    ⟨some "1", "X", "Y", "Z", "W"⟩ ⟨_, List.mem_singleton_self _, rfl⟩).1

/-! ### Helper lemmas about the stable descending sort -/

theorem insertDesc_perm (p : String × Nat) (l : List (String × Nat)) :
    List.Perm (insertDesc p l) (p :: l) := by
  induction l with
  | nil => exact List.Perm.refl _
  | cons q qs ih =>
    by_cases hq : q.2 > p.2
    · rw [insertDesc, if_pos hq]
      exact (ih.cons q).trans (List.Perm.swap p q qs)
    · rw [insertDesc, if_neg hq]

theorem sortDesc_perm (l : List (String × Nat)) :
    List.Perm (sortDesc l) l := by
  induction l with
  | nil => exact List.Perm.refl _
  | cons p ps ih => exact (insertDesc_perm p (sortDesc ps)).trans (ih.cons p)

theorem pairwise_insertDesc (p : String × Nat) (l : List (String × Nat))
    (h : l.Pairwise (fun a b => b.2 ≤ a.2)) :
    (insertDesc p l).Pairwise (fun a b => b.2 ≤ a.2) := by
  induction l with
  | nil => simp [insertDesc]
  | cons q qs ih =>
    rcases List.pairwise_cons.mp h with ⟨hq, hqs⟩
    by_cases hgt : q.2 > p.2
    · rw [insertDesc, if_pos hgt, List.pairwise_cons]
      refine ⟨fun x hx => ?_, ih hqs⟩
      rcases List.mem_cons.mp ((insertDesc_perm p qs).mem_iff.mp hx) with
        rfl | hxqs
      · omega
      · exact hq x hxqs
    · rw [insertDesc, if_neg hgt, List.pairwise_cons]
      refine ⟨fun x hx => ?_, h⟩
      rcases List.mem_cons.mp hx with rfl | hxqs
      · omega
      · have := hq x hxqs
        omega

theorem sortDesc_sorted (l : List (String × Nat)) :
    (sortDesc l).Pairwise (fun a b => b.2 ≤ a.2) := by
  induction l with
  | nil => simp [sortDesc]
  | cons p ps ih => exact pairwise_insertDesc p (sortDesc ps) ih

theorem pairwise_take {α : Type} {R : α → α → Prop} :
    ∀ (n : Nat) (l : List α), l.Pairwise R → (l.take n).Pairwise R
  | 0, _, _ => by simp
  | _ + 1, [], _ => by simp
  | n + 1, a :: l, h => by
    have hstep : (a :: l).take (n + 1) = a :: l.take n := rfl
    rw [hstep, List.pairwise_cons]
    rcases List.pairwise_cons.mp h with ⟨ha, hl⟩
    exact ⟨fun x hx => ha x (List.mem_of_mem_take hx), pairwise_take n l hl⟩

theorem filter_insertDesc (p : String × Nat) (l : List (String × Nat))
    (c : Nat) :
    (insertDesc p l).filter (fun q => q.2 = c) =
      if p.2 = c then p :: l.filter (fun q => q.2 = c)
      else l.filter (fun q => q.2 = c) := by
  induction l with
  | nil =>
    by_cases hp : p.2 = c <;> simp [insertDesc, List.filter_cons, hp]
  | cons q qs ih =>
    by_cases hgt : q.2 > p.2
    · rw [insertDesc, if_pos hgt]
      by_cases hq : q.2 = c
      · have hp : ¬p.2 = c := by omega
        simp [List.filter_cons, hq, hp, ih]
      · simp [List.filter_cons, hq, ih]
    · rw [insertDesc, if_neg hgt]
      by_cases hp : p.2 = c <;> simp [List.filter_cons, hp]

theorem filter_sortDesc (l : List (String × Nat)) (c : Nat) :
    (sortDesc l).filter (fun q => q.2 = c) = l.filter (fun q => q.2 = c) := by
  induction l with
  | nil => rfl
  | cons p ps ih =>
    rw [sortDesc, filter_insertDesc]
    by_cases hp : p.2 = c <;> simp [List.filter_cons, hp, ih]

theorem sum_take_le (l : List Nat) (n : Nat) : (l.take n).sum ≤ l.sum := by
  conv_rhs => rw [← List.take_append_drop n l]
  rw [List.sum_append]
  exact Nat.le_add_right _ _

theorem shown_sum_le (t : List (String × Nat)) (n : Nat) :
    ((topNList t n).map Prod.snd).sum ≤ (t.map Prod.snd).sum := by
  have hperm := (sortDesc_perm t).map Prod.snd
  calc ((topNList t n).map Prod.snd).sum
      = (((sortDesc t).map Prod.snd).take n).sum := by
        rw [topNList, List.map_take]
    _ ≤ ((sortDesc t).map Prod.snd).sum := sum_take_le _ _
    _ = (t.map Prod.snd).sum := hperm.sum_eq

theorem slices_snd_sum (l : List (String × Nat)) :
    ((l.map (fun p => (p.1, (p.2 : Int)))).map Prod.snd).sum
      = (((l.map Prod.snd).sum : Nat) : Int) := by
  induction l with
  | nil => simp
  | cons p ps ih =>
    simp only [List.map_cons, List.sum_cons, ih]
    push_cast
    ring

/-! ### Claims about topN, mostCommon and shareBreakdown -/

/-- Claim C1: for every frequency table and positive `n`, `topNList`
returns at most `n` entries, sorted by descending count, drawn from the
table, with entries of equal count in their original (first-insertion)
order; and the tie-break scenario `topN({A:3,B:3,C:1}, 2) = [(A,3),(B,3)]`
holds. -/
theorem topN_sorted_stable_truncated (t : List (String × Nat)) (n : Nat)
    (hn : 0 < n) :
    (topNList t n).length ≤ n ∧
    (topNList t n).Pairwise (fun p q => q.2 ≤ p.2) ∧
    (topNList t n).Subperm t ∧
    (∀ c : Nat, (topNList t n).filter (fun p => p.2 = c) <+:
      t.filter (fun p => p.2 = c)) ∧
    topNList [("A", 3), ("B", 3), ("C", 1)] 2 = [("A", 3), ("B", 3)] := by
  refine ⟨?_, ?_, ?_, ?_, by decide⟩
  · rw [topNList, List.length_take]
    exact min_le_left _ _
  · exact pairwise_take n (sortDesc t) (sortDesc_sorted t)
  · exact ((List.take_sublist n (sortDesc t)).subperm).trans
      (sortDesc_perm t).subperm
  · intro c
    rw [← filter_sortDesc t c]
    refine ⟨((sortDesc t).drop n).filter (fun q => q.2 = c), ?_⟩
    rw [topNList, ← List.filter_append, List.take_append_drop]

/-- Witness for C1 at the spec's tie-break scenario. -/
theorem topN_sorted_stable_truncated_witness :
    (topNList [("A", 3), ("B", 3), ("C", 1)] 2).length ≤ 2 :=
  (topN_sorted_stable_truncated [("A", 3), ("B", 3), ("C", 1)] 2
    (by decide)).1

/-- Counterexample to Claim C8 as stated: the table `{"": 1}` is non-empty
and its single `topN` entry has value `""`, yet `mostCommon` returns the
sentinel `"-"` because the JS expression `... || "-"` treats the empty
string as falsy. -/
theorem mostCommon_sentinel_counterexample :
    mostCommon [("", 1)] = "-" ∧ topNList [("", 1)] 1 = [("", 1)] ∧
    ([("", 1)] : List (String × Nat)) ≠ [] := by
  refine ⟨rfl, by decide, by simp⟩

/-- Claim C8 (amended): `mostCommon` returns the sentinel `"-"` on the
empty table; on a non-empty table `topNList t 1` is a single entry and
`mostCommon` returns that entry's value, except that a top value equal to
the empty string also yields the sentinel (JS falsiness of `""`). -/
theorem mostCommon_refines_topN (t : List (String × Nat)) :
    (t = [] → mostCommon t = "-" ∧ topNList t 1 = []) ∧
    (∀ p, topNList t 1 = [p] →
      mostCommon t = if p.1 = "" then "-" else p.1) ∧
    (t ≠ [] → ∃ p, topNList t 1 = [p]) := by
  refine ⟨?_, ?_, ?_⟩
  · rintro rfl
    exact ⟨rfl, rfl⟩
  · intro p hp
    cases hs : sortDesc t with
    | nil =>
      rw [topNList, hs, List.take_nil] at hp
      exact absurd hp (by simp)
    | cons q qs =>
      rw [topNList, hs] at hp
      have hq : (q :: qs).take 1 = [q] := rfl
      rw [hq] at hp
      obtain rfl : q = p := (List.cons_eq_cons.mp hp).1
      simp [mostCommon, hs]
  · intro hne
    cases hs : sortDesc t with
    | nil =>
      have hperm := sortDesc_perm t
      rw [hs] at hperm
      exact absurd hperm.symm.eq_nil hne
    | cons q qs =>
      exact ⟨q, by rw [topNList, hs]; exact rfl⟩

/-- Witness for C8 at a concrete non-empty table. -/
theorem mostCommon_refines_topN_witness : mostCommon [("Rock", 2)] = "Rock" := by
  have h := (mostCommon_refines_topN [("Rock", 2)]).2.1 ("Rock", 2) (by decide)
  simpa using h

/-- Counterexample to Claim C2 as stated: for the non-empty frequency
table `{A: 1}` with `total = 0`, the donut-slice computation returns a
non-empty sequence and executes the division `1 / 0`. -/
theorem shareBreakdown_zero_total_counterexample :
    shareBreakdown [("A", 1)] 0 5 = [("A", 1)] ∧
    (1, 0) ∈ shareDivisions [("A", 1)] 0 5 := by
  refine ⟨by decide, by decide⟩

/-- Claim C2 (amended): for every frequency table consistent with
`total = 0` — positive counts summing to 0, hence the empty table, the only
shape the aggregation pipeline produces when the record set is empty —
`shareBreakdown` returns the empty sequence and executes no division at
all; non-empty tables with `total = 0` divide by zero instead. -/
theorem shareBreakdown_zero_total (t : List (String × Nat)) (n : Nat)
    (hpos : ∀ p ∈ t, 0 < p.2)
    (hsum : (t.map Prod.snd).sum = 0) :
    shareBreakdown t 0 n = [] ∧ shareDivisions t 0 n = [] := by
  have ht : t = [] := by
    cases t with
    | nil => rfl
    | cons p ps =>
      have := hpos p (List.mem_cons_self p ps)
      simp only [List.map_cons, List.sum_cons] at hsum
      omega
  subst ht
  constructor <;>
    simp [shareBreakdown, shareDivisions, topNList, sortDesc]

/-- Witness for C2 on the empty table. -/
theorem shareBreakdown_zero_total_witness :
    shareBreakdown [] 0 3 = [] :=
  (shareBreakdown_zero_total [] 3 (by simp) (by simp)).1

/-- Claim C6: when the table's counts sum to `total`, the counts of the
slices produced by `shareBreakdown` — the shown top-`n` entries plus the
`"Other"` entry, appended exactly when the shown counts sum to less than
`total` and carrying `total - sum(shown)` — sum to exactly `total`. -/
theorem shareBreakdown_conservation (t : List (String × Nat))
    (total n : Nat) (h : (t.map Prod.snd).sum = total) :
    ((shareBreakdown t total n).map Prod.snd).sum = (total : Int) ∧
    shareBreakdown t total n =
      (topNList t n).map (fun p => (p.1, (p.2 : Int))) ++
        (if ((topNList t n).map Prod.snd).sum < total then
          [("Other",
            (total : Int) - (((topNList t n).map Prod.snd).sum : Nat))]
         else []) := by
  have hle : ((topNList t n).map Prod.snd).sum ≤ total :=
    h ▸ shown_sum_le t n
  have hiff :
      (0 < (total : Int) - ((((topNList t n).map Prod.snd).sum : Nat) : Int))
        ↔ ((topNList t n).map Prod.snd).sum < total := by omega
  constructor
  · by_cases hlt : ((topNList t n).map Prod.snd).sum < total
    · rw [shareBreakdown, if_pos (hiff.mpr hlt), List.map_append,
        List.sum_append, slices_snd_sum]
      simp only [List.map_cons, List.map_nil, List.sum_cons, List.sum_nil]
      omega
    · rw [shareBreakdown, if_neg (fun hcon => hlt (hiff.mp hcon)),
        slices_snd_sum]
      have heq : ((topNList t n).map Prod.snd).sum = total :=
        le_antisymm hle (not_lt.mp hlt)
      rw [heq]
  · by_cases hlt : ((topNList t n).map Prod.snd).sum < total
    · rw [shareBreakdown, if_pos (hiff.mpr hlt), if_pos hlt]
    · rw [shareBreakdown, if_neg (fun hcon => hlt (hiff.mp hcon)),
        if_neg hlt, List.append_nil]

/-- Witness for C6 at a concrete table whose counts sum to the total. -/
theorem shareBreakdown_conservation_witness :
    ((shareBreakdown [("A", 2), ("B", 1)] 3 1).map Prod.snd).sum = (3 : Int) :=
  (shareBreakdown_conservation [("A", 2), ("B", 1)] 3 1 (by decide)).1

/-! ### Claims about form validation -/

/-- Counterexample to Claim C4 as stated: the `validateField` at
SongForm.tsx lines 120-127 rejects the digit in `"Song 1"` and reports a
different message, so `Title = "Song 1"` does not produce "no error"
there. -/
theorem validateField_letters_only_counterexample :
    validateFieldLettersOnly Field.Title "Song 1"
        = "Title can only contain letters and spaces" ∧
    validateFieldLettersOnly Field.Title "Song 1" ≠ "" := by
  refine ⟨by decide, by decide⟩

/-- Claim C4 (amended): for the `validateField` of SongForm.tsx lines
48-56 (and its copy in SongManager.tsx), the claim holds: the required
message appears exactly when the trimmed value is empty, the
character-set message appears, for Title and Artist only, exactly when the
non-empty value has a character outside letters, digits and whitespace,
and `Title = "Song 1"` yields no error. The second variant at lines
120-127 instead restricts Title/Artist to letters and whitespace, so
`"Song 1"` yields the error "Title can only contain letters and spaces"
there. -/
theorem validateField_spec (f : Field) (v : String) :
    (validateField f v = fieldName f ++ " is required" ↔
      v.data.all isJsWs = true) ∧
    ((f = Field.Title ∨ f = Field.Artist) →
      (validateField f v
          = fieldName f ++ " can only contain letters, numbers, and spaces"
        ↔ (v.data.all isJsWs = false ∧
            v.data.any (fun c => !(isTAAllowed c)) = true))) ∧
    ((f = Field.Album ∨ f = Field.Genre) →
      validateField f v
        ≠ fieldName f ++ " can only contain letters, numbers, and spaces") ∧
    validateField Field.Title "Song 1" = "" ∧
    validateFieldLettersOnly Field.Title "Song 1"
      = "Title can only contain letters and spaces" := by
  have h1 : fieldName f ++ " is required"
      ≠ fieldName f ++ " can only contain letters, numbers, and spaces" := by
    cases f <;> decide
  have h2 : fieldName f ++ " is required" ≠ "" := by cases f <;> decide
  have h3 : fieldName f ++ " can only contain letters, numbers, and spaces"
      ≠ "" := by cases f <;> decide
  refine ⟨?_, ?_, ?_, by decide, by decide⟩
  · by_cases hw : v.data.all isJsWs = true
    · rw [validateField, if_pos hw]
      exact iff_of_true rfl hw
    · have hL : validateField f v ≠ fieldName f ++ " is required" := by
        rw [validateField, if_neg hw]
        by_cases hb : ((f == Field.Title || f == Field.Artist) &&
            v.data.any fun c => !(isTAAllowed c)) = true
        · rw [if_pos hb]
          exact fun hc => h1 hc.symm
        · rw [if_neg hb]
          exact fun hc => h2 hc.symm
      exact iff_of_false hL hw
  · rintro (rfl | rfl) <;>
    · by_cases hw : v.data.all isJsWs = true
      · rw [validateField, if_pos hw]
        exact iff_of_false (fun hc => h1 hc)
          (fun hrhs => by rw [hw] at hrhs; cases hrhs.1)
      · by_cases ha : v.data.any (fun c => !(isTAAllowed c)) = true
        · rw [validateField, if_neg hw, if_pos (by simp [ha])]
          exact iff_of_true rfl ⟨by simpa using hw, ha⟩
        · rw [validateField, if_neg hw, if_neg (by simp [ha])]
          exact iff_of_false (fun hc => h3 hc.symm) (fun hrhs => ha hrhs.2)
  · rintro (rfl | rfl) <;>
    · by_cases hw : v.data.all isJsWs = true
      · rw [validateField, if_pos hw]
        exact h1
      · rw [validateField, if_neg hw, if_neg (by simp)]
        exact fun hc => h3 hc.symm

/-- Witness for C4 discharging the Title/Artist hypothesis at
`Title = "Song#1"`. -/
theorem validateField_spec_witness :
    validateField Field.Title "Song#1"
      = "Title can only contain letters, numbers, and spaces" := by
  have h := (validateField_spec Field.Title "Song#1").2.1 (Or.inl rfl)
  exact h.mpr (by decide)

/-- Claim C5 (code bug, evaluated at the failing input): submitting the
form with all four fields empty validates and records only Title —
`fields.every` / the `&&`-chain short-circuit at the first failure — even
though Artist's own validation would report "Artist is required", so not
every field is validated independently on submission. -/
theorem handleSubmit_short_circuit :
    validateAll allFields (fun _ => "")
        = ([(Field.Title, "Title is required")], false) ∧
    validateField Field.Artist "" = "Artist is required" ∧
    Field.Artist ∉ (validateAll allFields (fun _ => "")).1.map Prod.fst := by
  refine ⟨by decide, by decide, by decide⟩

end SongCatalog
